import Mathlib

/-!
# Log streaming handlers of `internal/web/logs.go`

A shallow embedding of the HTTP handlers that export and stream container
logs: `downloadLogs`, `fetchLogsBetweenDates`, the membership filters
(`streamContainerLogs`, `streamLogsMerged`, `streamServiceLogs`,
`streamGroupedLogs`, `streamStackLogs`) and the coordinator
`streamLogsForContainers` with its tailer goroutines.

Sequential handler code is embedded as functions that return the list of
effects the handler performs, in program order.  The coordinator loop and
its goroutines are embedded as a transition function over an explicit
state; every source of nondeterminism (which ready `select` case fires,
which goroutine moves, what the environment delivers) is a `Choice`.
-/

namespace Dozzle

/-! ## Data model -/

/-- Instants, as ticks counted from Go's zero `time.Time{}`. -/
abbrev Time := Int

/-- The zero instant `time.Time{}`. -/
def Time.zero : Time := 0

/-- The Go `error` values the handlers tell apart; a nil error is `none` in
an `Option GoError`. -/
inductive GoError where
  | eof
  | canceled
  | deadlineExceeded
  | other (msg : String)
deriving DecidableEq, Repr

/-- The fields of `docker.Container` that `logs.go` reads. -/
structure Container where
  ID : String
  Name : String
  Host : String
  State : String
  Group : String
  Labels : List (String × String)
  StartedAt : Option Time
  Tty : Bool
deriving DecidableEq, Repr

/-- The fields of `docker.LogEvent` that `logs.go` reads, with the message
payload kept as text. -/
structure LogEvent where
  Message : String
  Timestamp : Int
deriving DecidableEq, Repr

/-- The struct `docker.ContainerEvent` as `logs.go` builds it. -/
structure ContainerEvent where
  ActorID : String
  Name : String
  Host : String
deriving DecidableEq, Repr

/-- Modelled from the spec: the constant `docker.STDOUT`, declared outside
`logs.go`; the spec describes `StdType` as a two-bit set over STDOUT and
STDERR, so STDOUT is the first bit. -/
def STDOUT : Nat := 1

/-- Modelled from the spec: the constant `docker.STDERR`, declared outside
`logs.go`; the second bit of the two-bit set `StdType`. -/
def STDERR : Nat := 2

/-- A Go map lookup `m[key]` on a `map[string]string`: the empty string when
the key is absent. -/
def mapGet (m : List (String × String)) (key : String) : String :=
  match m.find? (fun kv => kv.1 == key) with
  | some kv => kv.2
  | none => ""

/-- What a handler reads from `*http.Request`: the URL query as key/value
pairs in order, the chi URL parameters and the `Accept-Encoding` header. -/
structure Request where
  query : List (String × String)
  urlParams : List (String × String)
  acceptEncoding : String
deriving DecidableEq, Repr

/-- The call `r.URL.Query().Has(key)`. -/
def Request.Has (r : Request) (key : String) : Bool :=
  r.query.any (fun kv => kv.1 == key)

/-- The call `r.URL.Query().Get(key)`: first value, or the empty string. -/
def Request.Get (r : Request) (key : String) : String :=
  mapGet r.query key

/-- The index expression `r.URL.Query()[key]`: every value of the key. -/
def Request.values (r : Request) (key : String) : List String :=
  (r.query.filter (fun kv => kv.1 == key)).map (fun kv => kv.2)

/-- The call `chi.URLParam(r, key)`. -/
def Request.URLParam (r : Request) (key : String) : String :=
  mapGet r.urlParams key

/-- The std-type mask every handler computes from the query:
`stdTypes |= STDOUT` when `stdout` is present, `stdTypes |= STDERR` when
`stderr` is present. -/
def stdTypesOf (r : Request) : Nat :=
  let stdTypes := 0
  let stdTypes := if r.Has "stdout" then stdTypes ||| STDOUT else stdTypes
  let stdTypes := if r.Has "stderr" then stdTypes ||| STDERR else stdTypes
  stdTypes

/-- A raw log byte stream returned by the docker client. -/
abbrev Reader := String

/-- The collaborators of the handlers that live outside `logs.go`: the
docker client selected by `clientFromRequest`, the clock, the RFC 3339
parser behind `time.Parse`, the event generator and the JSON encoder. -/
structure Env where
  FindContainer : String → Except String Container
  ContainerLogsBetweenDates : String → Time → Time → Nat → Except String Reader
  now : Time
  nowFmt : String
  parseRFC3339Nano : String → Option Time
  generate : Reader → Container → List LogEvent
  marshalLog : LogEvent → Except String String
  marshalEvent : ContainerEvent → Except String String

/-- The call `time.Parse(time.RFC3339Nano, s)` with its error discarded, as in
`from, _ := time.Parse(...)`: on a parse error Go returns the zero `Time`. -/
def parseOrZero (env : Env) (s : String) : Time :=
  match env.parseRFC3339Nano s with
  | some t => t
  | none => Time.zero

/-- One observable action of a sequential handler, in program order. -/
inductive Effect where
  | setHeader (key value : String)
  | addHeader (key value : String)
  | httpError (msg : String) (code : Nat)
  | findContainer (id : String)
  | logsBetweenDates (id : String) (since til : Time) (std : Nat)
  | gzipOpen (name comment : String) (modTime : Time)
  | gzipClose
  | ioCopy (reader : Reader)
  | stdCopy (reader : Reader)
  | write (bytes : String)
  | logError (msg : String)
deriving DecidableEq, Repr

/-- Whether an effect is a call of `ContainerLogsBetweenDates`. -/
def Effect.isLogsBetweenDates : Effect → Bool
  | .logsBetweenDates _ _ _ _ => true
  | _ => false

/-- The constant `http.StatusBadRequest`. -/
def StatusBadRequest : Nat := 400

/-- The constant `http.StatusNotFound`. -/
def StatusNotFound : Nat := 404

/-- The constant `http.StatusInternalServerError`. -/
def StatusInternalServerError : Nat := 500

/-! ## Sequential handlers -/

/-- Whether the characters `p` begin the characters `s`. -/
def beginsWith : List Char → List Char → Bool
  | _, [] => true
  | [], _ :: _ => false
  | a :: s, b :: p => a == b && beginsWith s p

/-- The call `strings.Contains(s, p)` on character lists. -/
def containsChars : List Char → List Char → Bool
  | [], p => p.isEmpty
  | a :: s, p => beginsWith (a :: s) p || containsChars s p

/-- The handler `downloadLogs` (lines 25-76). -/
def downloadLogs (env : Env) (r : Request) : List Effect :=
  let id := r.URLParam "id"
  match env.FindContainer id with
  | .error err => [.findContainer id, .httpError err StatusBadRequest]
  | .ok container =>
    let contentDisposition :=
      "attachment; filename=" ++ container.Name ++ "-" ++ env.nowFmt ++ ".log"
    let hdrs : List Effect :=
      if containsChars r.acceptEncoding.toList "gzip".toList then
        [.setHeader "Content-Disposition" contentDisposition,
         .setHeader "Content-Encoding" "gzip",
         .setHeader "Content-Type" "application/text"]
      else
        [.setHeader "Content-Disposition" (contentDisposition ++ ".gz"),
         .setHeader "Content-Type" "application/gzip"]
    let stdTypes := stdTypesOf r
    if stdTypes == 0 then
      .findContainer id :: hdrs ++
        [.httpError "stdout or stderr is required" StatusBadRequest]
    else
      let zw : Effect :=
        .gzipOpen (container.Name ++ "-" ++ env.nowFmt ++ ".log")
          "Logs generated by Dozzle" env.now
      match env.ContainerLogsBetweenDates id Time.zero env.now stdTypes with
      | .error err =>
        .findContainer id :: hdrs ++
          [zw, .logsBetweenDates id Time.zero env.now stdTypes,
           .httpError err StatusInternalServerError, .gzipClose]
      | .ok reader =>
        .findContainer id :: hdrs ++
          [zw, .logsBetweenDates id Time.zero env.now stdTypes,
           (if container.Tty then .ioCopy reader else .stdCopy reader),
           .gzipClose]

/-- The body of `for event := range g.Events` in `fetchLogsBetweenDates`:
`encoder.Encode(event)` writes the JSON text and a newline, or the error is
logged. -/
def encodeEvent (env : Env) (event : LogEvent) : Effect :=
  match env.marshalLog event with
  | .error err => .logError ("json encoding error while streaming " ++ err)
  | .ok buf => .write (buf ++ "\n")

/-- The handler `fetchLogsBetweenDates` (lines 78-118). -/
def fetchLogsBetweenDates (env : Env) (r : Request) : List Effect :=
  let hdr : Effect := .setHeader "Content-Type" "application/x-jsonl; charset=UTF-8"
  let since := parseOrZero env (r.Get "from")
  let til := parseOrZero env (r.Get "to")
  let id := r.URLParam "id"
  let stdTypes := stdTypesOf r
  if stdTypes == 0 then
    [hdr, .httpError "stdout or stderr is required" StatusBadRequest]
  else
    match env.FindContainer id with
    | .error err => [hdr, .findContainer id, .httpError err StatusNotFound]
    | .ok container =>
      match env.ContainerLogsBetweenDates container.ID since til stdTypes with
      | .error err =>
        [hdr, .findContainer id,
         .logsBetweenDates container.ID since til stdTypes,
         .httpError err StatusInternalServerError]
      | .ok reader =>
        [hdr, .findContainer id,
         .logsBetweenDates container.ID since til stdTypes] ++
          (env.generate reader container).map (encodeEvent env)

/-! ## The coordinator `streamLogsForContainers` and its tailer goroutines -/

/-- What the environment gives one tailer goroutine: either `ContainerLogs`
fails, or it returns a reader whose event generator yields `events` on
`g.Events`, closes it, and leaves `pending` on `g.Errors` (`none`: nothing
to receive, `some none`: a nil error, `some (some e)`: the error `e`). -/
inductive Outcome where
  | openFailed (err : String)
  | opened (events : List LogEvent) (pending : Option (Option GoError))
deriving DecidableEq, Repr

/-- The events a tailer forwards: the generator's sequence, none when the
open failed. -/
def Outcome.events : Outcome → List LogEvent
  | .openFailed _ => []
  | .opened events _ => events

/-- The event built at line 372. -/
def startedEvent (container : Container) : ContainerEvent :=
  { ActorID := container.ID, Name := "container-started", Host := container.Host }

/-- The event built at line 388. -/
def stoppedEvent (container : Container) : ContainerEvent :=
  { ActorID := container.ID, Name := "container-stopped", Host := container.Host }

/-- The guard of line 371:
`container.StartedAt != nil && container.StartedAt.After(started)`. -/
def startedAfter (container : Container) (started : Time) : Bool :=
  match container.StartedAt with
  | none => false
  | some t => decide (started < t)

/-- One thing a tailer goroutine does after its range loop. -/
inductive TailStep where
  | send (ev : ContainerEvent)
  | debug (msg : String)
  | error (msg : String)
deriving DecidableEq, Repr

/-- The text of `err.Error()`. -/
def GoError.text : GoError → String
  | .eof => "EOF"
  | .canceled => "context canceled"
  | .deadlineExceeded => "context deadline exceeded"
  | .other msg => msg

/-- The final `select` of a tailer goroutine (lines 383-395); `ctxErr` is the
value of `r.Context().Err()` when the goroutine reads it. -/
def workerTail (container : Container) (pending : Option (Option GoError))
    (ctxErr : Option GoError) : List TailStep :=
  match pending with
  | none => []
  | some err =>
    match err with
    | none => []
    | some e =>
      if e = GoError.eof then
        [.debug ("stream closed for container " ++ container.Name),
         .send (stoppedEvent container)]
      else if some e ≠ ctxErr then
        [.error ("unknown error while streaming " ++ e.text)]
      else []

/-- A send performed by a tailer goroutine: on `logs` or on `events`. -/
inductive Send where
  | log (event : LogEvent)
  | lifecycle (ev : ContainerEvent)
deriving DecidableEq, Repr

/-- The channel sends among the steps of the final `select`. -/
def tailSends : List TailStep → List Send
  | [] => []
  | .send ev :: rest => .lifecycle ev :: tailSends rest
  | _ :: rest => tailSends rest

/-- The verb `%d` applied to an `int64`. -/
def fmtInt (n : Int) : String := toString n

/-- The bytes the `case event := <-logs` arm writes (lines 357-365), built up
write by write. -/
def logCase (env : Env) (event : LogEvent) : String :=
  let w := ""
  let w := match env.marshalLog event with
    | .error _ => w
    | .ok buf => w ++ ("data: " ++ buf ++ "\n")
  let w := if event.Timestamp > 0 then w ++ ("id: " ++ fmtInt event.Timestamp ++ "\n") else w
  w ++ "\n"

/-- The bytes the `case <-ticker.C` arm writes (line 368). -/
def tickCase : String := ":ping \n\n"

/-- The bytes the `case event := <-events` arm writes (lines 400-405): `none`
when `json.Marshal` fails, in which case nothing is written or flushed. -/
def eventCase (env : Env) (ev : ContainerEvent) : Option String :=
  match env.marshalEvent ev with
  | .error _ => none
  | .ok buf => some ("event: container-event\ndata: " ++ buf ++ "\n\n")

/-- Where a tailer goroutine is. -/
inductive Phase where
  | running
  | exited
deriving DecidableEq, Repr

/-- One spawned tailer goroutine: its container, what its log source yields,
and how many events it has handed to the coordinator. -/
structure Worker where
  container : Container
  outcome : Outcome
  pos : Nat
  phase : Phase
deriving DecidableEq, Repr

/-- Where the coordinator is: at the `select`, inside the send
`events <- started` of line 372 (the tailer for the received container not
yet spawned), or past `break loop`. -/
inductive Pc where
  | select
  | sending (container : Container) (outcome : Outcome)
  | stopped
deriving DecidableEq, Repr

/-- An entry of the history of a run, newest first in the state.  Frames
carry the bytes written to the response; `enqueued` and `spawned` record a
completed send on `events` and a `go` statement. -/
inductive Obs where
  | logFrame (w : Nat) (container : Container) (bytes : String)
  | ping (bytes : String)
  | eventFrame (ev : ContainerEvent) (bytes : String)
  | enqueued (ev : ContainerEvent)
  | spawned (w : Nat) (container : Container)
deriving DecidableEq, Repr

/-- The bytes an entry put on the wire. -/
def Obs.bytes : Obs → String
  | .logFrame _ _ b => b
  | .ping b => b
  | .eventFrame _ b => b
  | .enqueued _ => ""
  | .spawned _ _ => ""

/-- The capacity of `events := make(chan *docker.ContainerEvent, 1)`. -/
def eventsCap : Nat := 1

/-- The state of one streaming request after line 351. -/
structure State where
  pc : Pc
  started : Time
  ctxErr : Option GoError
  events : List ContainerEvent
  workers : List Worker
  hist : List Obs
  flushes : Nat
deriving DecidableEq, Repr

/-- The state on entry to the loop: empty channels, no goroutine, nothing
written. -/
def State.init (started : Time) : State :=
  { pc := .select, started := started, ctxErr := none, events := [],
    workers := [], hist := [], flushes := 0 }

/-- All bytes written to the response so far, oldest first. -/
def wireOf : List Obs → String
  | [] => ""
  | o :: older => wireOf older ++ o.bytes

/-- The bytes on the wire in a state. -/
def State.wire (s : State) : String := wireOf s.hist

/-- The statement `go func(container docker.Container) {...}(container)`. -/
def spawn (s : State) (container : Container) (outcome : Outcome) : State :=
  { s with
    workers := s.workers ++
      [{ container := container, outcome := outcome, pos := 0, phase := .running }],
    hist := .spawned s.workers.length container :: s.hist }

/-- Everything that can happen next: a ready arm of the coordinator's
`select` being taken, the blocked send of line 372 completing, a tailer
leaving its range loop, or the request context being cancelled. -/
inductive Choice where
  | log (w : Nat)
  | tick
  | container (c : Container) (outcome : Outcome)
  | enqueue
  | event
  | done
  | cancel
  | finish (w : Nat)
deriving DecidableEq, Repr

/-- One transition of the request: `none` when the chosen move is not enabled
(the `select` arm is not ready, the channel is full, the goroutine is
elsewhere).

* `log w`: the arm `event := <-logs` (lines 356-366) receives the next event of
  tailer `w`, which is blocked in `logs <- event` (line 381).
* `tick`: the arm `<-ticker.C` (lines 367-369).
* `container c o`: the arm `container := <-containers` (line 370) receives `c`;
  with `StartedAt` after `started` the coordinator goes on to the send of
  line 372, otherwise straight to the `go` statement.
* `enqueue`: the send `events <- started` of line 372 completes, which needs
  room in the buffer, and the `go` statement follows.
* `event`: the arm `event := <-events` (lines 398-405).
* `done`: the arm `<-r.Context().Done()` (lines 407-409).
* `cancel`: the request context is cancelled.
* `finish w`: tailer `w`, its open failed or its events all forwarded, runs
  lines 383-395; a send on `events` needs room in the buffer. -/
def step (env : Env) (s : State) : Choice → Option State
  | .log w =>
    match s.pc, s.workers[w]? with
    | .select, some wk =>
      match wk.phase, wk.outcome.events[wk.pos]? with
      | .running, some event =>
        some { s with
          workers := s.workers.set w { wk with pos := wk.pos + 1 },
          hist := .logFrame w wk.container (logCase env event) :: s.hist,
          flushes := s.flushes + 1 }
      | _, _ => none
    | _, _ => none
  | .tick =>
    match s.pc with
    | .select =>
      some { s with hist := .ping tickCase :: s.hist, flushes := s.flushes + 1 }
    | _ => none
  | .container c outcome =>
    match s.pc with
    | .select =>
      if startedAfter c s.started then some { s with pc := .sending c outcome }
      else some (spawn s c outcome)
    | _ => none
  | .enqueue =>
    match s.pc with
    | .sending c outcome =>
      if s.events.length < eventsCap then
        some (spawn
          { s with
            pc := .select,
            events := s.events ++ [startedEvent c],
            hist := .enqueued (startedEvent c) :: s.hist } c outcome)
      else none
    | _ => none
  | .event =>
    match s.pc, s.events with
    | .select, ev :: rest =>
      match eventCase env ev with
      | some bytes =>
        some { s with
          events := rest,
          hist := .eventFrame ev bytes :: s.hist,
          flushes := s.flushes + 1 }
      | none => some { s with events := rest }
    | _, _ => none
  | .done =>
    match s.pc, s.ctxErr with
    | .select, some _ => some { s with pc := .stopped }
    | _, _ => none
  | .cancel =>
    match s.ctxErr with
    | none => some { s with ctxErr := some .canceled }
    | some _ => none
  | .finish w =>
    match s.workers[w]? with
    | some wk =>
      match wk.phase, wk.outcome with
      | .running, .openFailed _ =>
        some { s with workers := s.workers.set w { wk with phase := .exited } }
      | .running, .opened events pending =>
        if wk.pos = events.length then
          match tailSends (workerTail wk.container pending s.ctxErr) with
          | [] => some { s with workers := s.workers.set w { wk with phase := .exited } }
          | [.lifecycle ev] =>
            if s.events.length < eventsCap then
              some { s with
                workers := s.workers.set w { wk with phase := .exited },
                events := s.events ++ [ev],
                hist := .enqueued ev :: s.hist }
            else none
          | _ => none
        else none
      | _, _ => none
    | none => none

/-- A move that is not enabled leaves the state as it is. -/
def next (env : Env) (s : State) (c : Choice) : State :=
  (step env s c).getD s

/-- The state after a schedule, a list of moves taken in order. -/
def exec (env : Env) (s : State) (cs : List Choice) : State :=
  cs.foldl (next env) s

/-- The function `streamLogsForContainers` (lines 319-423): the effects of the
code before the loop, and the state in which the loop is entered, `none` when
the function returns before it.  `isFlusher` is the outcome of
`w.(http.Flusher)`; `started := time.Now()` reads the clock. -/
def streamLogsForContainers (env : Env) (r : Request) (isFlusher : Bool) :
    List Effect × Option State :=
  let stdTypes := stdTypesOf r
  if stdTypes == 0 then
    ([.httpError "stdout or stderr is required" StatusBadRequest], none)
  else if !isFlusher then
    ([.httpError "Streaming unsupported!" StatusInternalServerError], none)
  else
    ([.setHeader "Content-Type" "text/event-stream",
      .setHeader "Cache-Control" "no-transform",
      .addHeader "Cache-Control" "no-cache",
      .setHeader "Connection" "keep-alive",
      .setHeader "X-Accel-Buffering" "no"],
     some (State.init env.now))

/-- The log frames of tailer `w` in a history, oldest first. -/
def framesOf (w : Nat) : List Obs → List String
  | [] => []
  | .logFrame w' _ bytes :: older =>
    if w' = w then framesOf w older ++ [bytes] else framesOf w older
  | _ :: older => framesOf w older

/-! ## Membership filters -/

/-- The enumerate phase shared by `streamServiceLogs`, `streamGroupedLogs` and
`streamStackLogs`: for each store, `store.List()`; an error ends the
goroutine (`false`), otherwise every listed container that passes the guard
is pushed. -/
def enumeratePhase (guard : Container → Bool) :
    List (Except String (List Container)) → List Container × Bool
  | [] => ([], true)
  | .error _ :: _ => ([], false)
  | .ok list :: rest =>
    let (pushed, ok) := enumeratePhase guard rest
    (list.filter guard ++ pushed, ok)

/-- Both phases of a guarded filter goroutine: the containers it pushes on the
membership channel, in order.  `stores` are the results of `store.List()`,
`news` is what `newContainers` delivers, and `sends` is the number of pushes
that complete before `r.Context().Done()` wins one of the selects. -/
def filterPushes (guard : Container → Bool)
    (stores : List (Except String (List Container))) (news : List Container)
    (sends : Nat) : List Container :=
  let (pushed, ok) := enumeratePhase guard stores
  (pushed ++ (if ok then news.filter guard else [])).take sends

/-- The guard of `streamServiceLogs` (lines 196 and 211). -/
def serviceGuard (service : String) (container : Container) : Bool :=
  container.State == "running" &&
    (mapGet container.Labels "com.docker.swarm.service.name" == service)

/-- The guard of `streamGroupedLogs` (lines 242 and 256). -/
def groupGuard (group : String) (container : Container) : Bool :=
  container.State == "running" && (container.Group == group)

/-- The guard of `streamStackLogs` (lines 287 and 301). -/
def stackGuard (stack : String) (container : Container) : Bool :=
  container.State == "running" &&
    (mapGet container.Labels "com.docker.stack.namespace" == stack)

/-- The pushes of `streamServiceLogs`. -/
def streamServiceLogs (r : Request) (stores : List (Except String (List Container)))
    (news : List Container) (sends : Nat) : List Container :=
  filterPushes (serviceGuard (r.URLParam "service")) stores news sends

/-- The pushes of `streamGroupedLogs`. -/
def streamGroupedLogs (r : Request) (stores : List (Except String (List Container)))
    (news : List Container) (sends : Nat) : List Container :=
  filterPushes (groupGuard (r.URLParam "group")) stores news sends

/-- The pushes of `streamStackLogs`. -/
def streamStackLogs (r : Request) (stores : List (Except String (List Container)))
    (news : List Container) (sends : Nat) : List Container :=
  filterPushes (stackGuard (r.URLParam "stack")) stores news sends

/-- The pushes of `streamContainerLogs` (lines 129-161): the container found
by id (line 138), then every new container with that id (line 145); no push
when `FindContainer` fails.  `sends` bounds the pushes of the goroutine as in
`filterPushes`. -/
def streamContainerLogs (env : Env) (r : Request) (news : List Container)
    (sends : Nat) : List Container :=
  let id := r.URLParam "id"
  match env.FindContainer id with
  | .error _ => []
  | .ok container => container :: (news.filter (fun c => c.ID == id)).take sends

/-- The loop of `streamLogsMerged` (lines 171-178): the containers pushed
before the first failing `FindContainer`, and whether every id was found. -/
def mergedLoop (env : Env) : List String → List Container × Bool
  | [] => ([], true)
  | id :: rest =>
    match env.FindContainer id with
    | .error _ => ([], false)
    | .ok container =>
      let (pushed, ok) := mergedLoop env rest
      (container :: pushed, ok)

/-- The pushes of `streamLogsMerged` (lines 163-181): none without an `id`
query key. -/
def streamLogsMerged (env : Env) (r : Request) : List Container :=
  if !r.Has "id" then [] else (mergedLoop env (r.values "id")).1

/-! ## Invariants of the coordinator -/

/-- The log frames written for tailer `w` are the frames of the events it has
handed over so far, in source order; a tailer that does not exist has none. -/
def FramesInv (env : Env) (s : State) : Prop :=
  ∀ w, framesOf w s.hist =
    match s.workers[w]? with
    | some wk => (wk.outcome.events.take wk.pos).map (logCase env)
    | none => []

/-- A tailer never hands over more events than its source has, and one that
has exited has handed over all of them. -/
def Worker.Ok (wk : Worker) : Prop :=
  wk.pos ≤ wk.outcome.events.length ∧
    (wk.phase = .exited → wk.pos = wk.outcome.events.length)

/-- Every spawned tailer satisfies `Worker.Ok`. -/
def PosInv (s : State) : Prop :=
  ∀ (w : Nat) (wk : Worker), s.workers[w]? = some wk → wk.Ok

/-- The order of a history, newest entry first: the spawn of a tailer for a
container started after `started` comes directly after the enqueueing of that
container's `container-started` event, and every log frame of a tailer comes
after the spawn of that tailer. -/
def SpawnOrder (started : Time) : List Obs → Prop
  | [] => True
  | .spawned _ c :: older =>
    (startedAfter c started = true →
        ∃ rest, older = Obs.enqueued (startedEvent c) :: rest)
      ∧ SpawnOrder started older
  | .logFrame w c _ :: older => Obs.spawned w c ∈ older ∧ SpawnOrder started older
  | _ :: older => SpawnOrder started older

/-- The request start never changes, the history satisfies `SpawnOrder`, and
the spawn of every tailer is in the history under its own index. -/
def StartedInv (started : Time) (s : State) : Prop :=
  s.started = started ∧ SpawnOrder started s.hist ∧
    ∀ (w : Nat) (wk : Worker), s.workers[w]? = some wk →
      Obs.spawned w wk.container ∈ s.hist

/-! ## Sample inputs -/

/-- A container that was running before the request began. -/
def webOld : Container :=
  { ID := "c1", Name := "web-1", Host := "h1", State := "running", Group := "web",
    Labels := [("com.docker.swarm.service.name", "web")], StartedAt := some 50,
    Tty := false }

/-- A container started after the request began (see `sampleEnv.now`). -/
def webNew : Container :=
  { ID := "c2", Name := "web-2", Host := "h1", State := "running", Group := "web",
    Labels := [("com.docker.swarm.service.name", "web")], StartedAt := some 200,
    Tty := false }

/-- A container that has exited. -/
def webExited : Container :=
  { ID := "c3", Name := "web-3", Host := "h1", State := "exited", Group := "web",
    Labels := [("com.docker.swarm.service.name", "web")], StartedAt := some 10,
    Tty := false }

/-- Collaborators for the samples: three known containers, the clock at 100,
a parser that accepts one timestamp, and an encoder that rejects the message
`"bad"` and the actor `"bad"`. -/
def sampleEnv : Env :=
  { FindContainer := fun id =>
      if id = "c1" then .ok webOld
      else if id = "c2" then .ok webNew
      else if id = "c3" then .ok webExited
      else .error "no such container"
    ContainerLogsBetweenDates := fun _ _ _ _ => .ok "raw"
    now := 100
    nowFmt := "2024-01-01T00-00-00"
    parseRFC3339Nano := fun s => if s = "0001-01-01T00:00:07Z" then some 7 else none
    generate := fun _ _ => []
    marshalLog := fun e => if e.Message = "bad" then .error "unsupported value" else .ok e.Message
    marshalEvent := fun ev =>
      if ev.ActorID = "bad" then .error "unsupported value" else .ok (ev.Name ++ " " ++ ev.ActorID) }

/-- A request for container `c1` without `stdout` or `stderr`. -/
def reqNoStd : Request :=
  { query := [("from", "0001-01-01T00:00:07Z")], urlParams := [("id", "c1")],
    acceptEncoding := "gzip, deflate" }

/-- A request for container `c1` with `stdout`, a good `from` and a malformed
`to`. -/
def reqBadTo : Request :=
  { query := [("stdout", ""), ("from", "0001-01-01T00:00:07Z"), ("to", "yesterday")],
    urlParams := [("id", "c1")], acceptEncoding := "" }

/-- A request for the exited container `c3`. -/
def reqExited : Request :=
  { query := [("stdout", ""), ("id", "c3")], urlParams := [("id", "c3")],
    acceptEncoding := "" }

/-- A request for the service, group or stack `web`. -/
def reqWeb : Request :=
  { query := [("stdout", "")],
    urlParams := [("service", "web"), ("group", "web"), ("stack", "web")],
    acceptEncoding := "" }

/-- A log event with a positive timestamp that encodes. -/
def lineA : LogEvent := { Message := "a", Timestamp := 5 }

/-- A log event without timestamp that encodes. -/
def lineB : LogEvent := { Message := "b", Timestamp := 0 }

/-- A log event with a positive timestamp that the encoder rejects. -/
def lineBad : LogEvent := { Message := "bad", Timestamp := 5 }

/-- The loop state after the pre-existing container `c1` has arrived and its
tailer, which will yield `lineA` then `lineB`, has been spawned. -/
def oneTailer : State :=
  exec sampleEnv (State.init 100) [.container webOld (.opened [lineA, lineB] none)]

/-- A run in which two tailers' events, a keepalive and a cancellation
interleave, the first tailer ending with `io.EOF`. -/
def interleaved : List Choice :=
  [.container webOld (.opened [lineA, lineB] (some (some .eof))),
   .container webExited (.opened [lineB, lineBad] none),
   .log 1, .log 0, .tick, .log 1, .log 0, .finish 0, .event, .cancel, .done]

/-- A second container that was running before the request began. -/
def dbOld : Container :=
  { ID := "c4", Name := "db-1", Host := "h1", State := "running", Group := "db",
    Labels := [], StartedAt := some 60, Tty := false }

/-- A run in which two tailers each hand over their one line and find `io.EOF`
pending: tailer 0 puts its `container-stopped` event into the buffer, the
request is cancelled and the coordinator leaves the loop through the `Done`
arm; tailer 1 is then at its send of line 388. -/
def twoEof : List Choice :=
  [.container webOld (.opened [lineA] (some (some .eof))),
   .container dbOld (.opened [lineB] (some (some .eof))),
   .log 0, .log 1, .finish 0, .cancel, .done]

/-- A run that fills the lifecycle buffer and then receives a container
started after the request began: tailer 0 ends with `io.EOF` and its
`container-stopped` event sits in the buffer when `c2` arrives. -/
def fullBuffer : List Choice :=
  [.container webOld (.opened [] (some (some .eof))), .finish 0,
   .container webNew (.opened [lineA] none)]

/-! ## Requests without a std-type flag -/

theorem stdTypesOf_eq_zero (r : Request) (hout : r.Has "stdout" = false)
    (herr : r.Has "stderr" = false) : stdTypesOf r = 0 := by
  simp [stdTypesOf, hout, herr]

/-- C1: when the query has neither `stdout` nor `stderr`,
`streamLogsForContainers` performs the single effect `http.Error(400,
"stdout or stderr is required")` and never enters its loop (so no header is
set, nothing is received, spawned or written); `fetchLogsBetweenDates` answers
400 after its content-type header and `downloadLogs` ends with a 400, and
neither calls `ContainerLogsBetweenDates`. -/
theorem missing_std_flags_rejected (env : Env) (r : Request) (isFlusher : Bool)
    (hout : r.Has "stdout" = false) (herr : r.Has "stderr" = false) :
    streamLogsForContainers env r isFlusher
        = ([.httpError "stdout or stderr is required" 400], none)
      ∧ fetchLogsBetweenDates env r
        = [.setHeader "Content-Type" "application/x-jsonl; charset=UTF-8",
           .httpError "stdout or stderr is required" 400]
      ∧ (∃ msg, (downloadLogs env r).getLast? = some (.httpError msg 400))
      ∧ (downloadLogs env r).any Effect.isLogsBetweenDates = false := by
  have h0 := stdTypesOf_eq_zero r hout herr
  refine ⟨?_, ?_, ?_, ?_⟩
  · simp [streamLogsForContainers, h0, StatusBadRequest]
  · simp [fetchLogsBetweenDates, h0, StatusBadRequest]
  · cases hf : env.FindContainer (r.URLParam "id") with
    | error err => exact ⟨err, by simp [downloadLogs, hf, StatusBadRequest]⟩
    | ok c =>
      refine ⟨"stdout or stderr is required", ?_⟩
      simp only [downloadLogs, hf, h0, beq_self_eq_true, if_true]
      split <;> rfl
  · cases hf : env.FindContainer (r.URLParam "id") with
    | error err => simp [downloadLogs, hf, Effect.isLogsBetweenDates]
    | ok c =>
      simp only [downloadLogs, hf, h0, beq_self_eq_true, if_true]
      split <;> rfl

/-- An instance of C1 at the request `reqNoStd`. -/
theorem missing_std_flags_rejected_witness :
    reqNoStd.Has "stdout" = false ∧ reqNoStd.Has "stderr" = false
      ∧ streamLogsForContainers sampleEnv reqNoStd true
        = ([.httpError "stdout or stderr is required" 400], none) :=
  ⟨by decide, by decide,
    (missing_std_flags_rejected sampleEnv reqNoStd true (by decide) (by decide)).1⟩

/-! ## Date bounds of `fetchLogsBetweenDates` -/

/-- C10 (as stated, refuted): for the request `reqBadTo`, whose `to` value
does not parse, `fetchLogsBetweenDates` calls `ContainerLogsBetweenDates` with
the zero timestamp as upper bound and makes no call with the clock value
`now = 100` as upper bound. -/
theorem fetch_unparsable_to_is_not_now :
    sampleEnv.parseRFC3339Nano (reqBadTo.Get "to") = none
      ∧ sampleEnv.now = 100
      ∧ fetchLogsBetweenDates sampleEnv reqBadTo
        = [.setHeader "Content-Type" "application/x-jsonl; charset=UTF-8",
           .findContainer "c1", .logsBetweenDates "c1" 7 0 1]
      ∧ Effect.logsBetweenDates "c1" 7 sampleEnv.now 1
          ∉ fetchLogsBetweenDates sampleEnv reqBadTo := by
  refine ⟨by decide, rfl, by decide, by decide⟩

/-- C10 (amended): for a request with a std-type flag and a known container
id, `fetchLogsBetweenDates` returns no error before it calls
`ContainerLogsBetweenDates` with the container's id, the parsed `from` and
`to` values, and the zero timestamp in place of each value that does not
parse. -/
theorem fetch_unparsable_bounds_are_zero (env : Env) (r : Request) (c : Container)
    (hstd : r.Has "stdout" = true ∨ r.Has "stderr" = true)
    (hfind : env.FindContainer (r.URLParam "id") = .ok c) :
    ∃ rest, fetchLogsBetweenDates env r
      = [.setHeader "Content-Type" "application/x-jsonl; charset=UTF-8",
         .findContainer (r.URLParam "id"),
         .logsBetweenDates c.ID
           ((env.parseRFC3339Nano (r.Get "from")).getD 0)
           ((env.parseRFC3339Nano (r.Get "to")).getD 0)
           (stdTypesOf r)] ++ rest := by
  have hne : (stdTypesOf r == 0) = false := by
    rcases hstd with h | h
    · cases h2 : r.Has "stderr" <;> simp [stdTypesOf, h, h2, STDOUT, STDERR]
    · cases h2 : r.Has "stdout" <;> simp [stdTypesOf, h, h2, STDOUT, STDERR]
  have hp : ∀ s, parseOrZero env s = (env.parseRFC3339Nano s).getD 0 := by
    intro s
    unfold parseOrZero
    cases env.parseRFC3339Nano s <;> rfl
  simp only [fetchLogsBetweenDates, hne, hfind, hp]
  cases env.ContainerLogsBetweenDates c.ID
      ((env.parseRFC3339Nano (r.Get "from")).getD 0)
      ((env.parseRFC3339Nano (r.Get "to")).getD 0) (stdTypesOf r) with
  | error err => exact ⟨_, rfl⟩
  | ok reader => exact ⟨_, rfl⟩

/-- An instance of C10 (amended) at the request `reqBadTo`. -/
theorem fetch_unparsable_bounds_are_zero_witness :
    (reqBadTo.Has "stdout" = true ∨ reqBadTo.Has "stderr" = true)
      ∧ sampleEnv.FindContainer (reqBadTo.URLParam "id") = .ok webOld
      ∧ ∃ rest, fetchLogsBetweenDates sampleEnv reqBadTo
        = [.setHeader "Content-Type" "application/x-jsonl; charset=UTF-8",
           .findContainer (reqBadTo.URLParam "id"),
           .logsBetweenDates webOld.ID
             ((sampleEnv.parseRFC3339Nano (reqBadTo.Get "from")).getD 0)
             ((sampleEnv.parseRFC3339Nano (reqBadTo.Get "to")).getD 0)
             (stdTypesOf reqBadTo)] ++ rest :=
  ⟨Or.inl (by decide), rfl,
    fetch_unparsable_bounds_are_zero sampleEnv reqBadTo webOld (Or.inl (by decide)) rfl⟩

/-! ## Membership filters -/

/-- C8 (as stated, refuted): `streamContainerLogs` for the exited container
`c3` pushes it on the membership channel, and so does `streamLogsMerged`. -/
theorem id_filters_push_exited_container :
    streamContainerLogs sampleEnv reqExited [] 0 = [webExited]
      ∧ streamLogsMerged sampleEnv reqExited = [webExited]
      ∧ webExited.State ≠ "running" := by
  refine ⟨by decide, by decide, by decide⟩

theorem enumeratePhase_mem (guard : Container → Bool)
    (stores : List (Except String (List Container))) (c : Container)
    (h : c ∈ (enumeratePhase guard stores).1) : guard c = true := by
  induction stores with
  | nil => simp [enumeratePhase] at h
  | cons st rest ih =>
    cases st with
    | error e => simp [enumeratePhase] at h
    | ok list =>
      simp only [enumeratePhase, List.mem_append, List.mem_filter] at h
      rcases h with h | h
      · exact h.2
      · exact ih h

theorem filterPushes_mem (guard : Container → Bool)
    (stores : List (Except String (List Container))) (news : List Container)
    (sends : Nat) (c : Container) (h : c ∈ filterPushes guard stores news sends) :
    guard c = true := by
  unfold filterPushes at h
  have h2 := List.mem_of_mem_take h
  simp only [List.mem_append] at h2
  rcases h2 with h2 | h2
  · exact enumeratePhase_mem guard stores c h2
  · split at h2
    · exact (List.mem_filter.mp h2).2
    · simp at h2

/-- C8 (amended): in the service, group and stack filters, in the enumerate
phase and in the subscribe phase, every container pushed on the membership
channel has `State` equal to `"running"`. -/
theorem guarded_filters_push_running_only (r : Request)
    (stores : List (Except String (List Container))) (news : List Container)
    (sends : Nat) (c : Container)
    (h : c ∈ streamServiceLogs r stores news sends
      ∨ c ∈ streamGroupedLogs r stores news sends
      ∨ c ∈ streamStackLogs r stores news sends) :
    c.State = "running" := by
  rcases h with h | h | h
  · have := filterPushes_mem _ stores news sends c h
    simp [serviceGuard] at this
    exact this.1
  · have := filterPushes_mem _ stores news sends c h
    simp [groupGuard] at this
    exact this.1
  · have := filterPushes_mem _ stores news sends c h
    simp [stackGuard] at this
    exact this.1

/-- An instance of C8 (amended) at a service request with one store listing a
running and an exited container. -/
theorem guarded_filters_push_running_only_witness :
    webOld ∈ streamServiceLogs reqWeb [.ok [webExited, webOld]] [webNew] 5
      ∧ webOld.State = "running" :=
  ⟨by decide,
    guarded_filters_push_running_only reqWeb [.ok [webExited, webOld]] [webNew] 5 webOld
      (Or.inl (by decide))⟩

/-! ## Frames and tailer outcomes -/

theorem fmtInt_pos (n : Int) (h : 0 < n) : fmtInt n = Nat.repr n.toNat := by
  cases n with
  | ofNat m => rfl
  | negSucc m => exact absurd h (by simp)

theorem wire_log_step (env : Env) (s : State) (w : Nat) (wk : Worker) (e : LogEvent)
    (hpc : s.pc = .select) (hw : s.workers[w]? = some wk) (hph : wk.phase = .running)
    (he : wk.outcome.events[wk.pos]? = some e) :
    ∃ s2, step env s (.log w) = some s2 ∧ s2.wire = s.wire ++ logCase env e := by
  refine ⟨{ s with
      workers := s.workers.set w { wk with pos := wk.pos + 1 },
      hist := .logFrame w wk.container (logCase env e) :: s.hist,
      flushes := s.flushes + 1 }, ?_, rfl⟩
  simp only [step, hpc, hw, hph, he]

/-- C2: when the coordinator receives a log event `e` whose JSON encoding
succeeds with bytes `buf`, the bytes appended to the wire are exactly
`data: buf\n`, then `id: <decimal timestamp>\n` exactly when the timestamp is
positive, then one `\n`. -/
theorem log_event_frame (env : Env) (s : State) (w : Nat) (wk : Worker) (e : LogEvent)
    (buf : String)
    (hpc : s.pc = .select) (hw : s.workers[w]? = some wk) (hph : wk.phase = .running)
    (he : wk.outcome.events[wk.pos]? = some e) (hbuf : env.marshalLog e = .ok buf) :
    ∃ s2, step env s (.log w) = some s2 ∧
      s2.wire = s.wire ++
        (("data: " ++ buf ++ "\n") ++
          (if 0 < e.Timestamp then "id: " ++ Nat.repr e.Timestamp.toNat ++ "\n" else "")
          ++ "\n") := by
  obtain ⟨s2, h1, h2⟩ := wire_log_step env s w wk e hpc hw hph he
  refine ⟨s2, h1, ?_⟩
  rw [h2]
  congr 1
  simp only [logCase, hbuf]
  by_cases hts : 0 < e.Timestamp
  · simp [hts, fmtInt_pos e.Timestamp hts]
  · simp [hts]

/-- An instance of C2 at the first event of `oneTailer`. -/
theorem log_event_frame_witness :
    ∃ s2, step sampleEnv oneTailer (.log 0) = some s2 ∧
      s2.wire = oneTailer.wire ++
        (("data: " ++ "a" ++ "\n") ++
          (if 0 < lineA.Timestamp then "id: " ++ Nat.repr lineA.Timestamp.toNat ++ "\n" else "")
          ++ "\n") :=
  log_event_frame sampleEnv oneTailer 0
    { container := webOld, outcome := .opened [lineA, lineB] none, pos := 0, phase := .running }
    lineA "a" rfl rfl rfl rfl rfl

/-- C9 (the code at the failing input): the coordinator receives `lineBad`,
whose encoding fails, and still writes `id: 5`, a newline and the blank
line; a lifecycle event whose encoding fails writes nothing. -/
theorem log_encoding_failure_still_writes :
    sampleEnv.marshalLog lineBad = .error "unsupported value"
      ∧ (exec sampleEnv (State.init 100)
          [.container webOld (.opened [lineBad] none), .log 0]).wire = "id: 5\n\n"
      ∧ eventCase sampleEnv { ActorID := "bad", Name := "container-stopped", Host := "h1" }
          = none := by
  refine ⟨rfl, by decide, rfl⟩

/-! ## Order of the log frames of one tailer -/

theorem framesInv_init (env : Env) (started : Time) : FramesInv env (State.init started) := by
  intro w
  simp [State.init, framesOf]

theorem framesInv_spawn (env : Env) (s : State) (c : Container) (o : Outcome)
    (h : FramesInv env s) : FramesInv env (spawn s c o) := by
  intro w
  have hw := h w
  simp only [spawn, framesOf]
  rcases Nat.lt_trichotomy w s.workers.length with hlt | heq | hgt
  · rw [List.getElem?_append_left hlt]
    exact hw
  · subst heq
    simp only [List.getElem?_concat_length]
    rw [List.getElem?_eq_none (le_refl _)] at hw
    simpa using hw
  · have h1 : s.workers.length ≤ w := Nat.le_of_lt hgt
    rw [List.getElem?_eq_none h1] at hw
    rw [List.getElem?_eq_none (by simp; omega)]
    exact hw

theorem framesInv_hist (env : Env) (s t : State) (hw : t.workers = s.workers)
    (hh : ∀ w, framesOf w t.hist = framesOf w s.hist) (h : FramesInv env s) :
    FramesInv env t := by
  intro w
  rw [hh w, hw]
  exact h w

theorem framesInv_exit (env : Env) (s t : State) (w0 : Nat) (wk : Worker)
    (hwk : s.workers[w0]? = some wk)
    (hw : t.workers = s.workers.set w0 { wk with phase := .exited })
    (hh : ∀ w, framesOf w t.hist = framesOf w s.hist) (h : FramesInv env s) :
    FramesInv env t := by
  intro w
  have hw1 := h w
  rw [hh w, hw, hw1]
  by_cases hEq : w0 = w
  · subst hEq
    have hlt : w0 < s.workers.length := by
      rcases Nat.lt_or_ge w0 s.workers.length with h1 | h1
      · exact h1
      · rw [List.getElem?_eq_none h1] at hwk
        cases hwk
    rw [List.getElem?_set_self, hwk]
    simp [hlt]
  · rw [List.getElem?_set_ne hEq]

theorem framesInv_log (env : Env) (s : State) (w0 : Nat) (wk : Worker) (e : LogEvent)
    (hwk : s.workers[w0]? = some wk) (he : wk.outcome.events[wk.pos]? = some e)
    (h : FramesInv env s) :
    FramesInv env { s with
      workers := s.workers.set w0 { wk with pos := wk.pos + 1 },
      hist := .logFrame w0 wk.container (logCase env e) :: s.hist,
      flushes := s.flushes + 1 } := by
  intro w
  have hw1 := h w
  have hlt : w0 < s.workers.length := by
    rcases Nat.lt_or_ge w0 s.workers.length with h1 | h1
    · exact h1
    · rw [List.getElem?_eq_none h1] at hwk
      cases hwk
  by_cases hEq : w0 = w
  · subst hEq
    simp only [framesOf, if_true, List.getElem?_set_self, hlt]
    rw [hw1, hwk]
    simp only [List.take_succ, he, List.map_append, Option.toList]
    rfl
  · simp only [framesOf, hEq, if_false]
    rw [hw1, List.getElem?_set_ne hEq]

theorem framesInv_next (env : Env) (s : State) (c : Choice) (h : FramesInv env s) :
    FramesInv env (next env s c) := by
  cases c with
  | log w =>
    simp only [next, step]
    split
    · split
      · rename_i _ _ wk _ hwk _ _ e _ he
        exact framesInv_log env s w wk e hwk he h
      · exact h
    · exact h
  | tick =>
    simp only [next, step]
    split
    · exact framesInv_hist env s _ rfl (fun w => rfl) h
    · exact h
  | container c o =>
    simp only [next, step]
    split
    · split
      · exact framesInv_hist env s _ rfl (fun w => rfl) h
      · exact framesInv_spawn env s c o h
    · exact h
  | enqueue =>
    simp only [next, step]
    split
    · split
      · exact framesInv_spawn env _ _ _ (framesInv_hist env s _ rfl (fun w => rfl) h)
      · exact h
    · exact h
  | event =>
    simp only [next, step]
    split
    · split
      · exact framesInv_hist env s _ rfl (fun w => rfl) h
      · exact framesInv_hist env s _ rfl (fun w => rfl) h
    · exact h
  | done =>
    simp only [next, step]
    split
    · exact framesInv_hist env s _ rfl (fun w => rfl) h
    · exact h
  | cancel =>
    simp only [next, step]
    split
    · exact framesInv_hist env s _ rfl (fun w => rfl) h
    · exact h
  | finish w =>
    simp only [next, step]
    split
    · rename_i wk hwk
      split
      · exact framesInv_exit env s _ w wk hwk rfl (fun w => rfl) h
      · split
        · split
          · exact framesInv_exit env s _ w wk hwk rfl (fun w => rfl) h
          · split
            · exact framesInv_exit env s _ w wk hwk rfl (fun w => rfl) h
            · exact h
          · exact h
        · exact h
      · exact h
    · exact h

theorem framesInv_exec (env : Env) (cs : List Choice) (s : State) (h : FramesInv env s) :
    FramesInv env (exec env s cs) := by
  induction cs generalizing s with
  | nil => exact h
  | cons c cs ih => exact ih (next env s c) (framesInv_next env s c h)

theorem posInv_same (s t : State) (hw : t.workers = s.workers) (h : PosInv s) : PosInv t := by
  intro w wk hwk
  rw [hw] at hwk
  exact h w wk hwk

theorem posInv_set (s t : State) (w0 : Nat) (wk2 : Worker) (hok : wk2.Ok)
    (hw : t.workers = s.workers.set w0 wk2) (h : PosInv s) : PosInv t := by
  intro w wk hwk
  rw [hw] at hwk
  by_cases hEq : w0 = w
  · subst hEq
    rw [List.getElem?_set_self'] at hwk
    cases hs : s.workers[w0]? with
    | none => simp [hs] at hwk
    | some old =>
      simp [hs] at hwk
      rw [← hwk]
      exact hok
  · rw [List.getElem?_set_ne hEq] at hwk
    exact h w wk hwk

theorem posInv_spawn (s : State) (c : Container) (o : Outcome) (h : PosInv s) :
    PosInv (spawn s c o) := by
  intro w wk hwk
  simp only [spawn] at hwk
  rcases Nat.lt_or_ge w s.workers.length with hlt | hge
  · rw [List.getElem?_append_left hlt] at hwk
    exact h w wk hwk
  · rw [List.getElem?_append_right hge] at hwk
    cases hi : w - s.workers.length with
    | zero =>
      simp [hi] at hwk
      subst hwk
      exact ⟨Nat.zero_le _, fun hp => by cases hp⟩
    | succ n => simp [hi] at hwk

theorem posInv_init (started : Time) : PosInv (State.init started) := by
  intro w wk hwk
  simp [State.init] at hwk

theorem posInv_next (env : Env) (s : State) (c : Choice) (h : PosInv s) :
    PosInv (next env s c) := by
  cases c with
  | log w =>
    simp only [next, step]
    split
    · split
      · rename_i _ _ wk _ hwk _ _ e hph he
        refine posInv_set s _ w _ ?_ rfl h
        have hlt : wk.pos < wk.outcome.events.length := by
          rcases Nat.lt_or_ge wk.pos wk.outcome.events.length with h1 | h1
          · exact h1
          · rw [List.getElem?_eq_none h1] at he
            cases he
        exact ⟨hlt, fun hp => by simp [hph] at hp⟩
      · exact h
    · exact h
  | tick =>
    simp only [next, step]
    split
    · exact posInv_same s _ rfl h
    · exact h
  | container c o =>
    simp only [next, step]
    split
    · split
      · exact posInv_same s _ rfl h
      · exact posInv_spawn s c o h
    · exact h
  | enqueue =>
    simp only [next, step]
    split
    · split
      · exact posInv_spawn _ _ _ (posInv_same s _ rfl h)
      · exact h
    · exact h
  | event =>
    simp only [next, step]
    split
    · split
      · exact posInv_same s _ rfl h
      · exact posInv_same s _ rfl h
    · exact h
  | done =>
    simp only [next, step]
    split
    · exact posInv_same s _ rfl h
    · exact h
  | cancel =>
    simp only [next, step]
    split
    · exact posInv_same s _ rfl h
    · exact h
  | finish w =>
    simp only [next, step]
    split
    · rename_i wk hwk
      have hok := h w wk hwk
      split
      · rename_i hout
        refine posInv_set s _ w _ ?_ rfl h
        have h0 : wk.outcome.events.length = 0 := by simp [hout, Outcome.events]
        have h1 : wk.pos = wk.outcome.events.length := by have := hok.1; omega
        exact ⟨hok.1, fun _ => h1⟩
      · rename_i evs _ _ hout
        have hev : wk.outcome.events = evs := by rw [hout]; rfl
        split
        · rename_i hpos
          have hfull : wk.pos = wk.outcome.events.length := by rw [hev]; exact hpos
          split
          · refine posInv_set s _ w _ ?_ rfl h
            exact ⟨hok.1, fun _ => hfull⟩
          · split
            · refine posInv_set s _ w _ ?_ rfl h
              exact ⟨hok.1, fun _ => hfull⟩
            · exact h
          · exact h
        · exact h
      · exact h
    · exact h

theorem posInv_exec (env : Env) (cs : List Choice) (s : State) (h : PosInv s) :
    PosInv (exec env s cs) := by
  induction cs generalizing s with
  | nil => exact h
  | cons c cs ih => exact ih (next env s c) (posInv_next env s c h)

/-- C3: in every state a run can reach, the log frames written for a tailer
are the frames of the first `pos` events of its generator, in generator
order, `pos` being the number of events it has handed over; a tailer that has
exited has had its whole sequence written.  So the frame of an earlier event
always precedes the frame of a later one, whatever else is interleaved. -/
theorem tailer_frames_in_source_order (env : Env) (started : Time) (cs : List Choice)
    (w : Nat) (wk : Worker)
    (hw : (exec env (State.init started) cs).workers[w]? = some wk) :
    framesOf w (exec env (State.init started) cs).hist
        = (wk.outcome.events.take wk.pos).map (logCase env)
      ∧ (wk.phase = .exited →
          framesOf w (exec env (State.init started) cs).hist
            = wk.outcome.events.map (logCase env)) := by
  have h1 := framesInv_exec env cs _ (framesInv_init env started) w
  have h2 := posInv_exec env cs _ (posInv_init started) w wk hw
  rw [hw] at h1
  simp only at h1
  refine ⟨h1, fun hp => ?_⟩
  rw [h1, h2.2 hp, List.take_length]

/-- An instance of C3 at the first tailer of the run `interleaved`. -/
theorem tailer_frames_in_source_order_witness :
    framesOf 0 (exec sampleEnv (State.init 100) interleaved).hist
        = ([lineA, lineB].take 2).map (logCase sampleEnv)
      ∧ (Phase.exited = .exited →
          framesOf 0 (exec sampleEnv (State.init 100) interleaved).hist
            = [lineA, lineB].map (logCase sampleEnv)) :=
  tailer_frames_in_source_order sampleEnv 100 interleaved 0
    { container := webOld, outcome := .opened [lineA, lineB] (some (some .eof)), pos := 2,
      phase := .exited } (by decide)

/-! ## The send of line 372 on a full lifecycle buffer -/

theorem blocked_next (env : Env) (s : State) (c : Container) (o : Outcome) (ch : Choice)
    (hpc : s.pc = .sending c o) (hfull : eventsCap ≤ s.events.length) :
    (next env s ch).pc = s.pc ∧ (next env s ch).events = s.events
      ∧ (next env s ch).workers.length = s.workers.length
      ∧ (next env s ch).hist = s.hist := by
  have hnot : ¬ s.events.length < eventsCap := Nat.not_lt.mpr hfull
  cases ch with
  | log w => simp [next, step, hpc]
  | tick => simp [next, step, hpc]
  | container c2 o2 => simp [next, step, hpc]
  | enqueue => simp [next, step, hpc, hnot]
  | event => simp [next, step, hpc]
  | done => simp [next, step, hpc]
  | cancel =>
    simp only [next, step]
    split <;> simp
  | finish w =>
    simp only [next, step]
    split
    · split
      · simp
      · split
        · split
          · simp
          · simp [hnot]
          · simp
        · simp
      · simp
    · simp

theorem blocked_exec (env : Env) (cs : List Choice) (s : State) (c : Container)
    (o : Outcome) (hpc : s.pc = .sending c o) (hfull : eventsCap ≤ s.events.length) :
    (exec env s cs).pc = s.pc ∧ (exec env s cs).events = s.events
      ∧ (exec env s cs).workers.length = s.workers.length
      ∧ (exec env s cs).hist = s.hist := by
  induction cs generalizing s with
  | nil => exact ⟨rfl, rfl, rfl, rfl⟩
  | cons ch cs ih =>
    obtain ⟨h1, h2, h3, h4⟩ := blocked_next env s c o ch hpc hfull
    obtain ⟨k1, k2, k3, k4⟩ := ih (next env s ch) (h1.trans hpc) (by rw [h2]; exact hfull)
    exact ⟨k1.trans h1, k2.trans h2, k3.trans h3, k4.trans h4⟩

/-- C4 (the code at the failing input): after the run `fullBuffer` the
coordinator has received `c2`, whose `StartedAt` is after the request start,
and sits in the send of line 372 with the one-slot buffer full; whatever
happens next, cancellation included, it stays there: the `container-started`
event is never enqueued and no tailer is spawned for the arrival. -/
theorem started_send_blocks_on_full_buffer :
    startedAfter webNew 100 = true
      ∧ (exec sampleEnv (State.init 100) fullBuffer).pc
          = .sending webNew (.opened [lineA] none)
      ∧ (exec sampleEnv (State.init 100) fullBuffer).events = [stoppedEvent webOld]
      ∧ (exec sampleEnv (State.init 100) fullBuffer).workers.length = 1
      ∧ ∀ cs : List Choice,
          (exec sampleEnv (exec sampleEnv (State.init 100) fullBuffer) cs).pc
              = .sending webNew (.opened [lineA] none)
            ∧ (exec sampleEnv (exec sampleEnv (State.init 100) fullBuffer) cs).workers.length = 1
            ∧ Obs.enqueued (startedEvent webNew)
                ∉ (exec sampleEnv (exec sampleEnv (State.init 100) fullBuffer) cs).hist := by
  have hpc : (exec sampleEnv (State.init 100) fullBuffer).pc
      = .sending webNew (.opened [lineA] none) := by decide
  have hev : (exec sampleEnv (State.init 100) fullBuffer).events = [stoppedEvent webOld] := by
    decide
  have hlen : (exec sampleEnv (State.init 100) fullBuffer).workers.length = 1 := by decide
  have hhist : Obs.enqueued (startedEvent webNew)
      ∉ (exec sampleEnv (State.init 100) fullBuffer).hist := by decide
  refine ⟨by decide, hpc, hev, hlen, fun cs => ?_⟩
  obtain ⟨k1, _, k3, k4⟩ := blocked_exec sampleEnv cs _ _ _ hpc (by rw [hev]; decide)
  exact ⟨k1.trans hpc, k3.trans hlen, by rw [k4]; exact hhist⟩

/-! ## The send of line 388 on a full lifecycle buffer -/

theorem finish_with_eof (env : Env) (s : State) (w : Nat) (wk : Worker)
    (evs : List LogEvent) (hwk : s.workers[w]? = some wk) (hph : wk.phase = .running)
    (hout : wk.outcome = .opened evs (some (some .eof))) (hpos : wk.pos = evs.length) :
    step env s (.finish w) =
      if s.events.length < eventsCap then
        some { s with
          workers := s.workers.set w { wk with phase := .exited },
          events := s.events ++ [stoppedEvent wk.container],
          hist := .enqueued (stoppedEvent wk.container) :: s.hist }
      else none := by
  simp only [step, hwk, hph, hout, hpos, workerTail, tailSends, if_true]

theorem tailSends_without_eof (container : Container) (pending : Option (Option GoError))
    (ctxErr : Option GoError) (hne : pending ≠ some (some .eof)) :
    tailSends (workerTail container pending ctxErr) = [] := by
  rcases pending with _ | _ | e
  · rfl
  · rfl
  · have he : e ≠ GoError.eof := fun h => hne (by rw [h])
    by_cases hc : some e = ctxErr
    · subst hc
      simp [workerTail, tailSends, he]
    · simp [workerTail, tailSends, he, hc]

theorem finish_without_eof (env : Env) (s : State) (w : Nat) (wk : Worker)
    (evs : List LogEvent) (pending : Option (Option GoError))
    (hwk : s.workers[w]? = some wk) (hph : wk.phase = .running)
    (hout : wk.outcome = .opened evs pending) (hpos : wk.pos = evs.length)
    (hne : pending ≠ some (some .eof)) :
    step env s (.finish w) =
      some { s with workers := s.workers.set w { wk with phase := .exited } } := by
  simp only [step, hwk, hph, hout, hpos, if_true,
    tailSends_without_eof wk.container pending s.ctxErr hne]

theorem full_next (env : Env) (s : State) (ch : Choice) (w0 : Nat) (wk0 : Worker)
    (evs : List LogEvent) (hpc : s.pc ≠ .select) (hfull : eventsCap ≤ s.events.length)
    (hwk : s.workers[w0]? = some wk0) (hph : wk0.phase = .running)
    (hout : wk0.outcome = .opened evs (some (some .eof))) (hpos : wk0.pos = evs.length) :
    (next env s ch).pc = s.pc ∧ (next env s ch).events = s.events
      ∧ (next env s ch).hist = s.hist ∧ (next env s ch).workers[w0]? = some wk0 := by
  have hnot : ¬ s.events.length < eventsCap := Nat.not_lt.mpr hfull
  cases ch with
  | log w => cases hp : s.pc <;> simp_all [next, step]
  | tick => cases hp : s.pc <;> simp_all [next, step]
  | container c2 o2 => cases hp : s.pc <;> simp_all [next, step]
  | enqueue =>
    cases hp : s.pc with
    | select => exact absurd hp hpc
    | sending c o => simp [next, step, hp, if_neg hnot, hwk]
    | stopped => simp [next, step, hp, hwk]
  | event => cases hp : s.pc <;> simp_all [next, step]
  | done => cases hp : s.pc <;> simp_all [next, step]
  | cancel =>
    simp only [next, step]
    split <;> simp [hwk]
  | finish w =>
    by_cases hw : w = w0
    · subst hw
      simp [next, finish_with_eof env s w wk0 evs hwk hph hout hpos, hnot, hwk]
    · simp only [next, step]
      split
      · split
        · simp [List.getElem?_set_ne hw, hwk]
        · split
          · split
            · simp [List.getElem?_set_ne hw, hwk]
            · simp [hnot, hwk]
            · simp [hwk]
          · simp [hwk]
        · simp [hwk]
      · simp [hwk]

theorem full_exec (env : Env) (cs : List Choice) (s : State) (w0 : Nat) (wk0 : Worker)
    (evs : List LogEvent) (hpc : s.pc ≠ .select) (hfull : eventsCap ≤ s.events.length)
    (hwk : s.workers[w0]? = some wk0) (hph : wk0.phase = .running)
    (hout : wk0.outcome = .opened evs (some (some .eof))) (hpos : wk0.pos = evs.length) :
    (exec env s cs).hist = s.hist ∧ (exec env s cs).workers[w0]? = some wk0 := by
  induction cs generalizing s with
  | nil => exact ⟨rfl, hwk⟩
  | cons ch cs ih =>
    obtain ⟨h1, h2, h3, h4⟩ := full_next env s ch w0 wk0 evs hpc hfull hwk hph hout hpos
    obtain ⟨k1, k2⟩ := ih (next env s ch) (by rw [h1]; exact hpc) (by rw [h2]; exact hfull) h4
    exact ⟨k1.trans h3, k2⟩

/-- C6 (the code at the failing input): after the run `twoEof` tailer 1, whose
open succeeded, has handed over its whole sequence and has `io.EOF` pending,
while the one-slot buffer holds the event of tailer 0 and the coordinator has
left the loop; whatever happens next, tailer 1 stays in its send of line 388:
it never exits and its `container-stopped` event is never enqueued. -/
theorem stopped_send_blocks_on_full_buffer :
    (exec sampleEnv (State.init 100) twoEof).pc = .stopped
      ∧ (exec sampleEnv (State.init 100) twoEof).events = [stoppedEvent webOld]
      ∧ (exec sampleEnv (State.init 100) twoEof).workers[1]?
          = some { container := dbOld, outcome := .opened [lineB] (some (some .eof)),
                   pos := 1, phase := .running }
      ∧ ∀ cs : List Choice,
          (exec sampleEnv (exec sampleEnv (State.init 100) twoEof) cs).workers[1]?
              = some { container := dbOld, outcome := .opened [lineB] (some (some .eof)),
                       pos := 1, phase := .running }
            ∧ Obs.enqueued (stoppedEvent dbOld)
                ∉ (exec sampleEnv (exec sampleEnv (State.init 100) twoEof) cs).hist := by
  have hpc : (exec sampleEnv (State.init 100) twoEof).pc = .stopped := by decide
  have hev : (exec sampleEnv (State.init 100) twoEof).events = [stoppedEvent webOld] := by
    decide
  have hwk : (exec sampleEnv (State.init 100) twoEof).workers[1]?
      = some { container := dbOld, outcome := .opened [lineB] (some (some .eof)),
               pos := 1, phase := .running } := by decide
  have hhist : Obs.enqueued (stoppedEvent dbOld)
      ∉ (exec sampleEnv (State.init 100) twoEof).hist := by decide
  refine ⟨hpc, hev, hwk, fun cs => ?_⟩
  obtain ⟨k1, k2⟩ := full_exec sampleEnv cs _ 1 _ [lineB] (by rw [hpc]; decide)
    (by rw [hev]; decide) hwk rfl rfl rfl
  exact ⟨k2, by rw [k1]; exact hhist⟩

/-! ## Cancellation -/

theorem wireOf_ghost (ev : ContainerEvent) (h : List Obs) :
    wireOf (Obs.enqueued ev :: h) = wireOf h := by
  simp [wireOf, Obs.bytes]

theorem stopped_next (env : Env) (s : State) (ch : Choice) (hpc : s.pc = .stopped) :
    (next env s ch).pc = .stopped ∧ (next env s ch).wire = s.wire := by
  cases ch with
  | log w => simp [next, step, hpc]
  | tick => simp [next, step, hpc]
  | container c2 o2 => simp [next, step, hpc]
  | enqueue => simp [next, step, hpc]
  | event => simp [next, step, hpc]
  | done => simp [next, step, hpc]
  | cancel =>
    simp only [next, step]
    split <;> simp [hpc, State.wire]
  | finish w =>
    simp only [next, step]
    split
    · split
      · simp [hpc, State.wire]
      · split
        · split
          · simp [hpc, State.wire]
          · split
            · simp [hpc, State.wire, wireOf_ghost]
            · simp [hpc]
          · simp [hpc]
        · simp [hpc]
      · simp [hpc]
    · simp [hpc]

theorem stopped_exec (env : Env) (cs : List Choice) (s : State) (hpc : s.pc = .stopped) :
    (exec env s cs).pc = .stopped ∧ (exec env s cs).wire = s.wire := by
  induction cs generalizing s with
  | nil => exact ⟨hpc, rfl⟩
  | cons ch cs ih =>
    obtain ⟨h1, h2⟩ := stopped_next env s ch hpc
    obtain ⟨k1, k2⟩ := ih (next env s ch) h1
    exact ⟨k1, k2.trans h2⟩

/-- C7 (as stated, refuted): in the run below the context is cancelled while
tailer 0 is ready to hand over `lineA`; the `select` may still take the
`logs` arm, and the frame of `lineA` is written after the cancellation. -/
theorem frame_written_after_cancellation :
    (exec sampleEnv (State.init 100)
        [.container webOld (.opened [lineA, lineB] none), .cancel]).ctxErr
        = some GoError.canceled
      ∧ (exec sampleEnv (State.init 100)
        [.container webOld (.opened [lineA, lineB] none), .cancel]).wire = ""
      ∧ (exec sampleEnv (State.init 100)
        [.container webOld (.opened [lineA, lineB] none), .cancel, .log 0]).wire
        = "data: a\nid: 5\n\n" := by
  refine ⟨by decide, by decide, by decide⟩

/-- C7 (amended): once the request context is cancelled, whenever the
coordinator is at its `select` the cancellation arm is ready; taking it ends
the loop without writing, and from then on the coordinator stays past the
loop and no further bytes reach the wire, whatever the tailers and the
environment do. -/
theorem cancellation_arm_ends_loop (env : Env) (s : State) (e : GoError)
    (hpc : s.pc = .select) (hctx : s.ctxErr = some e) :
    ∃ t, step env s .done = some t ∧ t.pc = .stopped ∧ t.wire = s.wire
      ∧ ∀ cs : List Choice, (exec env t cs).pc = .stopped ∧ (exec env t cs).wire = s.wire := by
  refine ⟨{ s with pc := .stopped }, ?_, rfl, rfl, fun cs => ?_⟩
  · simp [step, hpc, hctx]
  · exact stopped_exec env cs _ rfl

/-- An instance of C7 (amended) at the state reached when the context is
cancelled with an event of tailer 0 still to hand over. -/
theorem cancellation_arm_ends_loop_witness :
    ∃ t, step sampleEnv
        (exec sampleEnv (State.init 100)
          [.container webOld (.opened [lineA, lineB] none), .log 0, .cancel]) .done = some t
      ∧ t.pc = .stopped
      ∧ t.wire = (exec sampleEnv (State.init 100)
          [.container webOld (.opened [lineA, lineB] none), .log 0, .cancel]).wire
      ∧ ∀ cs : List Choice, (exec sampleEnv t cs).pc = .stopped
          ∧ (exec sampleEnv t cs).wire = (exec sampleEnv (State.init 100)
              [.container webOld (.opened [lineA, lineB] none), .log 0, .cancel]).wire :=
  cancellation_arm_ends_loop sampleEnv _ GoError.canceled (by decide) (by decide)

/-! ## The `container-started` event and the log frames of its container -/

theorem startedInv_init (started : Time) : StartedInv started (State.init started) := by
  refine ⟨rfl, trivial, fun w wk hwk => ?_⟩
  simp [State.init] at hwk

theorem spawnOrder_cons (started : Time) (o : Obs) (h : List Obs)
    (ho : ∀ w c b, o ≠ .logFrame w c b) (hs : ∀ w c, o ≠ .spawned w c)
    (hh : SpawnOrder started h) : SpawnOrder started (o :: h) := by
  cases o with
  | logFrame w c b => exact absurd rfl (ho w c b)
  | ping b => exact hh
  | eventFrame ev b => exact hh
  | enqueued ev => exact hh
  | spawned w c => exact absurd rfl (hs w c)

theorem startedInv_same (started : Time) (s t : State) (hs : t.started = s.started)
    (hw : t.workers = s.workers) (hh : t.hist = s.hist) (h : StartedInv started s) :
    StartedInv started t := by
  obtain ⟨h1, h2, h3⟩ := h
  refine ⟨hs.trans h1, by rw [hh]; exact h2, fun w wk hwk => ?_⟩
  rw [hw] at hwk
  rw [hh]
  exact h3 w wk hwk

theorem startedInv_push (started : Time) (s t : State) (o : Obs)
    (ho : ∀ w c b, o ≠ .logFrame w c b) (hsp : ∀ w c, o ≠ .spawned w c)
    (hs : t.started = s.started)
    (hw : t.workers = s.workers) (hh : t.hist = o :: s.hist) (h : StartedInv started s) :
    StartedInv started t := by
  obtain ⟨h1, h2, h3⟩ := h
  refine ⟨hs.trans h1, by rw [hh]; exact spawnOrder_cons started o _ ho hsp h2,
    fun w wk hwk => ?_⟩
  rw [hw] at hwk
  rw [hh]
  exact List.mem_cons_of_mem _ (h3 w wk hwk)

theorem startedInv_set (started : Time) (s t : State) (w0 : Nat) (wk wk2 : Worker)
    (hwk0 : s.workers[w0]? = some wk)
    (hs : t.started = s.started) (hw : t.workers = s.workers.set w0 wk2)
    (hh : t.hist = s.hist) (hc : wk2.container = wk.container)
    (h : StartedInv started s) : StartedInv started t := by
  obtain ⟨h1, h2, h3⟩ := h
  refine ⟨hs.trans h1, by rw [hh]; exact h2, fun w wk3 hwk => ?_⟩
  rw [hw] at hwk
  rw [hh]
  by_cases hEq : w0 = w
  · subst hEq
    rw [List.getElem?_set_self'] at hwk
    simp [hwk0] at hwk
    subst hwk
    rw [hc]
    exact h3 w0 wk hwk0
  · rw [List.getElem?_set_ne hEq] at hwk
    exact h3 w wk3 hwk

theorem startedInv_spawn (started : Time) (s : State) (c : Container) (o : Outcome)
    (hc : startedAfter c started = true →
      ∃ rest, s.hist = Obs.enqueued (startedEvent c) :: rest)
    (h : StartedInv started s) : StartedInv started (spawn s c o) := by
  obtain ⟨h1, h2, h3⟩ := h
  refine ⟨h1, ⟨hc, h2⟩, fun w wk hwk => ?_⟩
  simp only [spawn] at hwk ⊢
  rcases Nat.lt_or_ge w s.workers.length with hlt | hge
  · rw [List.getElem?_append_left hlt] at hwk
    exact List.mem_cons_of_mem _ (h3 w wk hwk)
  · rw [List.getElem?_append_right hge] at hwk
    cases hi : w - s.workers.length with
    | zero =>
      simp [hi] at hwk
      subst hwk
      have hw : w = s.workers.length := by omega
      subst hw
      exact List.mem_cons_self _ _
    | succ n => simp [hi] at hwk

theorem startedInv_next (env : Env) (started : Time) (s : State) (c : Choice)
    (h : StartedInv started s) : StartedInv started (next env s c) := by
  cases c with
  | log w =>
    simp only [next, step]
    split
    · split
      · rename_i _ _ wk _ hwk _ _ e _ he
        have hmem := h.2.2 w wk hwk
        have h1 : StartedInv started
            { s with hist := .logFrame w wk.container (logCase env e) :: s.hist } := by
          refine ⟨h.1, ⟨hmem, h.2.1⟩, fun w2 wk2 hwk2 => ?_⟩
          exact List.mem_cons_of_mem _ (h.2.2 w2 wk2 hwk2)
        exact startedInv_set started
          { s with hist := .logFrame w wk.container (logCase env e) :: s.hist }
          _ w wk _ hwk rfl rfl rfl rfl h1
      · exact h
    · exact h
  | tick =>
    simp only [next, step]
    split
    · exact startedInv_push started s _ _ (fun _ _ _ hne => by cases hne)
        (fun _ _ hne => by cases hne) rfl rfl rfl h
    · exact h
  | container c o =>
    simp only [next, step]
    split
    · split
      · exact startedInv_same started s _ rfl rfl rfl h
      · rename_i hna
        refine startedInv_spawn started s c o (fun ha => ?_) h
        rw [h.1] at hna
        exact absurd ha hna
    · exact h
  | enqueue =>
    simp only [next, step]
    split
    · split
      · refine startedInv_spawn started _ _ _ (fun _ => ⟨_, rfl⟩) ?_
        exact startedInv_push started s _ _ (fun _ _ _ hne => by cases hne)
          (fun _ _ hne => by cases hne) rfl rfl rfl h
      · exact h
    · exact h
  | event =>
    simp only [next, step]
    split
    · split
      · exact startedInv_push started s _ _ (fun _ _ _ hne => by cases hne)
          (fun _ _ hne => by cases hne) rfl rfl rfl h
      · exact startedInv_same started s _ rfl rfl rfl h
    · exact h
  | done =>
    simp only [next, step]
    split
    · exact startedInv_same started s _ rfl rfl rfl h
    · exact h
  | cancel =>
    simp only [next, step]
    split
    · exact startedInv_same started s _ rfl rfl rfl h
    · exact h
  | finish w =>
    simp only [next, step]
    split
    · rename_i wk hwk
      split
      · exact startedInv_set started s _ w wk _ hwk rfl rfl rfl rfl h
      · split
        · split
          · exact startedInv_set started s _ w wk _ hwk rfl rfl rfl rfl h
          · split
            · rename_i ev _ _
              have h1 : StartedInv started { s with hist := .enqueued ev :: s.hist } :=
                startedInv_push started s _ _ (fun _ _ _ hne => by cases hne)
                  (fun _ _ hne => by cases hne) rfl rfl rfl h
              exact startedInv_set started { s with hist := .enqueued ev :: s.hist }
                _ w wk _ hwk rfl rfl rfl rfl h1
            · exact h
          · exact h
        · exact h
      · exact h
    · exact h

theorem startedInv_exec (env : Env) (started : Time) (cs : List Choice) (s : State)
    (h : StartedInv started s) : StartedInv started (exec env s cs) := by
  induction cs generalizing s with
  | nil => exact h
  | cons c cs ih => exact ih (next env s c) (startedInv_next env started s c h)

theorem spawnOrder_suffix (started : Time) (newer older : List Obs)
    (h : SpawnOrder started (newer ++ older)) : SpawnOrder started older := by
  induction newer with
  | nil => exact h
  | cons o newer ih =>
    apply ih
    cases o with
    | logFrame w2 c2 b2 => exact h.2
    | ping b2 => exact h
    | eventFrame ev b2 => exact h
    | enqueued ev => exact h
    | spawned w2 c2 => exact h.2

theorem spawnOrder_at_spawn (started : Time) (newer older : List Obs) (w : Nat)
    (c : Container) (h : SpawnOrder started (newer ++ .spawned w c :: older))
    (ha : startedAfter c started = true) :
    ∃ rest, older = Obs.enqueued (startedEvent c) :: rest :=
  (spawnOrder_suffix started newer _ h).1 ha

theorem spawnOrder_at_frame (started : Time) (newer older : List Obs) (w : Nat)
    (c : Container) (b : String)
    (h : SpawnOrder started (newer ++ .logFrame w c b :: older))
    (ha : startedAfter c started = true) :
    ∃ mid rest, older = mid ++ Obs.spawned w c :: Obs.enqueued (startedEvent c) :: rest := by
  have h1 := spawnOrder_suffix started newer _ h
  obtain ⟨mid, tl, hsplit⟩ := List.append_of_mem h1.1
  have h2 : SpawnOrder started (mid ++ Obs.spawned w c :: tl) := by
    rw [← hsplit]
    exact h1.2
  obtain ⟨rest, hrest⟩ := spawnOrder_at_spawn started mid tl w c h2 ha
  exact ⟨mid, rest, by rw [hsplit, hrest]⟩

/-- C5 (as stated, refuted): container `c2`, started after the request
start, arrives; its `container-started` event is enqueued and its tailer
spawned; the `select` takes the ticker arm, and with both `events` and `logs`
ready it then takes the `logs` arm first, so the frame of the tailer's first
line reaches the wire before the `container-started` frame. -/
theorem log_frame_before_started_frame :
    startedAfter webNew 100 = true
      ∧ (exec sampleEnv (State.init 100)
          [.container webNew (.opened [lineA] none), .enqueue, .tick, .log 0,
           .event]).hist.reverse
        = [.enqueued (startedEvent webNew), .spawned 0 webNew, .ping ":ping \n\n",
           .logFrame 0 webNew "data: a\nid: 5\n\n",
           .eventFrame (startedEvent webNew)
             "event: container-event\ndata: container-started c2\n\n"] := by
  refine ⟨by decide, by decide⟩

/-- C5 (amended): for a container whose `StartedAt` is after the request
start, in every history a run can reach, the spawn of each tailer for it
comes directly after the enqueueing of that arrival's `container-started`
event on the lifecycle channel, and each log frame of that tailer comes after
that spawn, hence after that enqueueing (`older` is the part of the history
before the entry, newest first). -/
theorem started_enqueued_before_spawn_and_frames (env : Env) (started : Time)
    (cs : List Choice) (newer older : List Obs) (w : Nat) (c : Container)
    (ha : startedAfter c started = true) :
    ((exec env (State.init started) cs).hist = newer ++ .spawned w c :: older →
        ∃ rest, older = Obs.enqueued (startedEvent c) :: rest)
      ∧ ∀ b : String,
          (exec env (State.init started) cs).hist = newer ++ .logFrame w c b :: older →
          ∃ mid rest,
            older = mid ++ Obs.spawned w c :: Obs.enqueued (startedEvent c) :: rest := by
  have hinv := (startedInv_exec env started cs _ (startedInv_init started)).2.1
  refine ⟨fun hsplit => ?_, fun b hsplit => ?_⟩
  · rw [hsplit] at hinv
    exact spawnOrder_at_spawn started newer older w c hinv ha
  · rw [hsplit] at hinv
    exact spawnOrder_at_frame started newer older w c b hinv ha

/-- An instance of C5 (amended) at the run in which the log frame of `c2`
overtakes its `container-started` frame. -/
theorem started_enqueued_before_spawn_and_frames_witness :
    startedAfter webNew 100 = true
      ∧ ∃ mid rest,
          [Obs.ping ":ping \n\n", Obs.spawned 0 webNew, Obs.enqueued (startedEvent webNew)]
            = mid ++ Obs.spawned 0 webNew :: Obs.enqueued (startedEvent webNew) :: rest :=
  ⟨by decide,
    (started_enqueued_before_spawn_and_frames sampleEnv 100
      [.container webNew (.opened [lineA] none), .enqueue, .tick, .log 0, .event]
      [.eventFrame (startedEvent webNew)
        "event: container-event\ndata: container-started c2\n\n"]
      [.ping ":ping \n\n", .spawned 0 webNew, .enqueued (startedEvent webNew)] 0 webNew
      (by decide)).2 "data: a\nid: 5\n\n" (by decide)⟩

end Dozzle
